import Mathlib

/-!
Verification development for the expert-platform query-interpretation and
retrieval engine (TypeScript sources under `src/`).  JavaScript strings are
modelled as `List Char`; JavaScript numbers as `ℚ`; nullable fields as
`Option`; the network-facing AI call as an explicit outcome datatype.  Each
definition mirrors one function (or one revision of a function) of
`src/services/supabase.ts` or `src/tools/interviews.ts`; the two concatenated
revisions of those files are distinguished by the suffixes `V1` and `V2`.
-/

namespace ExpertPlatform

/-- JavaScript strings, modelled as lists of characters. -/
abbrev Str := List Char

/-- The apostrophe character (U+0027). -/
def apos : Char := Char.ofNat 39

/-- The double-quote character (U+0022). -/
def dquote : Char := Char.ofNat 34

/-- The backslash character (U+005C). -/
def bslash : Char := Char.ofNat 92

/-- ASCII whitespace recognized by the JS regex class `\s` (restricted to the
ASCII range, which is all these sources ever feed it). -/
def jsIsWs (c : Char) : Bool :=
  c == ' ' || c == '\t' || c == '\n' || c == '\r' ||
  c == Char.ofNat 11 || c == Char.ofNat 12

/-- ASCII lower-casing, as `String.prototype.toLowerCase` acts on ASCII. -/
def jsToLowerChar (c : Char) : Char :=
  if 'A' ≤ c ∧ c ≤ 'Z' then Char.ofNat (c.toNat + 32) else c

/-- `s.toLowerCase()` on ASCII strings. -/
def toLowerStr (s : Str) : Str := s.map jsToLowerChar

/-- ASCII upper-casing of one character, as `toUpperCase` acts on ASCII. -/
def jsToUpperChar (c : Char) : Char :=
  if 'a' ≤ c ∧ c ≤ 'z' then Char.ofNat (c.toNat - 32) else c

/-- `haystack.includes(needle)` for JS strings. -/
def jsIncludes (s sub : Str) : Bool :=
  s.tails.any (fun t => sub.isPrefixOf t)

/-- The characters removed by the injection sanitizer: the regex class
`[;'"\]` at src/services/supabase.ts lines 65 and 554. -/
def isBadChar (c : Char) : Bool :=
  c == ';' || c == apos || c == dquote || c == bslash

/-- `s.replace(/[class]/g, r)` for a single-character class: every character
matching `p` is replaced by `r`. -/
def replaceChars (p : Char → Bool) (r : Char) (s : Str) : Str :=
  s.map (fun c => if p c then r else c)

/-- `s.trim()`: strip whitespace from both ends. -/
def trimStr (s : Str) : Str :=
  (((s.dropWhile jsIsWs).reverse).dropWhile jsIsWs).reverse

/-- The sanitization step of `searchInterviews` (both revisions):
`searchTerms.replace(/[;'"\\]/g, ' ').trim()`. -/
def sanitize (s : Str) : Str := trimStr (replaceChars isBadChar ' ' s)

/-- Scanner for `splitRuns`: `inSep` records whether the scan is inside a
separator run, `cur` accumulates the current segment reversed. -/
def splitRunsAux (p : Char → Bool) : Bool → Str → Str → List Str
  | _, cur, [] => [cur.reverse]
  | inSep, cur, c :: rest =>
    if p c then
      if inSep then splitRunsAux p true cur rest
      else cur.reverse :: splitRunsAux p true [] rest
    else splitRunsAux p false (c :: cur) rest

/-- `s.split(/[chars]+/)` for a character-class regex: split at maximal runs
of separator characters, keeping the empty segments that JS produces at the
ends when the string starts or ends with a separator run. -/
def splitRuns (p : Char → Bool) (s : Str) : List Str := splitRunsAux p false [] s

/-- Separator class of the key-term split `/[\s,;.!?]+/` (supabase.ts line 53). -/
def isSplitChar (c : Char) : Bool :=
  jsIsWs c || c == ',' || c == ';' || c == '.' || c == '!' || c == '?'

/-- Separator class of the fallback word split `/[\s,]+/`. -/
def isWordSplitChar (c : Char) : Bool := jsIsWs c || c == ','

/-- Scanner for `stripParens`: `buf = some acc` when inside a candidate
group, `acc` holding the characters seen since the opening `(` (reversed).
A close emits a single space for the whole group; end-of-input with an open
buffer emits the `(` and its tail literally, since no `)` follows and the
regex therefore matches nowhere inside it. -/
def stripParensAux : Option Str → Str → Str
  | none, [] => []
  | some acc, [] => '(' :: acc.reverse
  | none, c :: rest =>
    if c = '(' then stripParensAux (some []) rest
    else c :: stripParensAux none rest
  | some acc, c :: rest =>
    if c = ')' then ' ' :: stripParensAux none rest
    else stripParensAux (some (c :: acc)) rest

/-- `searchTerms.replace(/\([^)]*\)/g, ' ')` (supabase.ts line 49): each
parenthesized group without an inner `)` is replaced by a single space; an
unmatched `(` is kept. -/
def stripParens (s : Str) : Str := stripParensAux none s

/-- The filler-word list of supabase.ts line 52. -/
def fillerWords : List Str :=
  ["interviews".data, "with".data, "customers".data, "of".data, "the".data,
   "and".data, "or".data, "about".data, "for".data, "in".data, "on".data,
   "at".data, "to".data, "from".data, "all".data, "find".data, "search".data,
   "please".data, "me".data, "that".data, "this".data, "what".data,
   "how".data, "why".data, "software".data, "process".data]

/-- `list.join(' ')`. -/
def joinSpace : List Str → Str
  | [] => []
  | [t] => t
  | t :: ts => t ++ ' ' :: joinSpace ts

/-- The key-term extraction of revision 1's `searchInterviews` for topics
longer than 50 characters (supabase.ts lines 47-61): strip parentheticals,
lower-case, split, keep tokens longer than 3 characters that are not filler
words, take the first 4, and re-join with spaces. -/
def extractKeyTerms (topic : Str) : Str :=
  let s1 := stripParens topic
  let words := splitRuns isSplitChar (toLowerStr s1)
  let keyWords := words.filter (fun w => decide (3 < w.length) && !(fillerWords.contains w))
  joinSpace (keyWords.take 4)

/-- The pre-sanitization search terms of revision 1's `searchInterviews`
(supabase.ts lines 44-62). -/
def searchTermsV1 (topic : Str) : Str :=
  if 50 < topic.length then extractKeyTerms topic else topic

/-- The full topic-to-search-string transformation of revision 1's
`searchInterviews` (supabase.ts lines 42-65): deterministic key-term
reduction followed by the injection sanitizer. -/
def normalizeTopicV1 (topic : Str) : Str := sanitize (searchTermsV1 topic)

/-- The whitespace-separated words of a search string (empty segments
dropped): the tokens a reader of the final filter string sees. -/
def wordTokens (s : Str) : List Str :=
  (splitRuns jsIsWs s).filter (fun t => !t.isEmpty)

/-- Outcome of the semantic-expansion AI call of revision 2
(`generateSemanticSearchTerms`, supabase.ts lines 456-502). -/
inductive SemOutcome where
  | noKey
  | fetchThrow
  | notOk
  | okText (t : Str)
deriving DecidableEq

/-- `generateSemanticSearchTerms` (supabase.ts lines 456-502): with no API
key, a thrown fetch, or a non-OK response the original query is returned;
a successful response yields the trimmed response text. -/
def generateSemanticSearchTerms (o : SemOutcome) (query : Str) : Str :=
  match o with
  | .noKey => query
  | .fetchThrow => query
  | .notOk => query
  | .okText t => trimStr t

/-- The topic-to-search-string transformation of revision 2's
`searchInterviews` (supabase.ts lines 540-556): semantic expansion (kept only
when nonempty), then the injection sanitizer. -/
def normalizeTopicV2 (o : SemOutcome) (topic : Str) : Str :=
  let sem := generateSemanticSearchTerms o topic
  let searchTerms := if sem.isEmpty then topic else sem
  sanitize searchTerms

/-! ### Criteria extractor (`generateSearchQueries`, both revisions) -/

/-- Employment-status enumeration of the search-criteria contract. -/
inductive EmpStatus where
  | current
  | former
  | any
deriving DecidableEq

/-- One search-criteria variant as produced by `generateSearchQueries`. -/
structure SearchCriteria where
  companies : List Str
  role_keywords : List Str
  employment_status : EmpStatus
  reasoning : Str
deriving DecidableEq

/-- JS truthiness push of an optional string parameter:
`if (x) list.push(x)` keeps a present, nonempty string only. -/
def optPush (o : Option Str) : List Str :=
  match o with
  | some s => if s.isEmpty then [] else [s]
  | none => []

/-- JS `\w` word character (for regex `\b` boundaries). -/
def isWordChar (c : Char) : Bool :=
  ('a' ≤ c ∧ c ≤ 'z') || ('A' ≤ c ∧ c ≤ 'Z') || ('0' ≤ c ∧ c ≤ '9') || c == '_'

/-- Whether the word `w` matches at the head of `s` with `\b` boundaries on
both sides, `prev` being the character just before this position. -/
def wordAt (w : Str) (prev : Option Char) (s : Str) : Bool :=
  w.isPrefixOf s &&
  (match prev with | none => true | some c => !isWordChar c) &&
  (match (s.drop w.length).head? with | none => true | some c => !isWordChar c)

/-- Scan helper for `containsWord`. -/
def containsWordAux (w : Str) : Option Char → Str → Bool
  | prev, [] => wordAt w prev []
  | prev, c :: rest => wordAt w prev (c :: rest) || containsWordAux w (some c) rest

/-- `s.match(/\bw\b/) !== null` for a word `w` of word characters. -/
def containsWord (w : Str) (s : Str) : Bool := containsWordAux w none s

/-- `s.match(/\b(w1|w2|...)\b/) !== null`. -/
def matchAnyWord (ws : List Str) (s : Str) : Bool := ws.any (fun w => containsWord w s)

/-- The canonical five-firm list of the "big 5" rule (both revisions). -/
def big5Companies : List Str :=
  ["Korn Ferry".data, "Russell Reynolds".data, "Heidrick & Struggles".data,
   "Spencer Stuart".data, "Egon Zehnder".data]

/-- Role keywords of the "big 5" rule in revision 1 (supabase.ts line 298). -/
def big5RolesV1 : List Str :=
  ["Partner".data, "Principal".data, "Director".data, "VP".data,
   "Executive Recruiter".data, "Managing Director".data, "Senior Associate".data]

/-- Role keywords of the "big 5" rule in revision 2 (supabase.ts line 801). -/
def big5RolesV2 : List Str :=
  ["Partner".data, "Principal".data, "Director".data, "VP".data,
   "Executive Recruiter".data, "Managing Director".data]

/-- The pattern-detection chain of revision 1's fallback (supabase.ts lines
286-315), returning the `(companies, roleKeywords)` pair.  `companies0` and
`roles0` hold the pushed explicit parameters, which every named branch of
this revision overwrites. -/
def patternV1 (query : Str) (companies0 _roles0 : List Str) : List Str × List Str :=
  let ql := toLowerStr query
  if jsIncludes ql "big 5".data || jsIncludes ql "executive search firm".data then
    (big5Companies, big5RolesV1)
  else if jsIncludes ql "consulting".data then
    (["McKinsey".data, "Bain".data, "BCG".data, "Deloitte".data, "PwC".data,
      "EY".data, "KPMG".data],
     ["Partner".data, "Principal".data, "Director".data, "VP".data,
      "Manager".data, "Senior Manager".data])
  else if jsIncludes ql "cdw".data || jsIncludes ql "shi".data ||
      jsIncludes ql "insight enterprises".data || jsIncludes ql "it reseller".data then
    (["CDW".data, "SHI".data, "SHI International".data, "Insight Enterprises".data,
      "Insight".data, "Softchoice".data, "Connection".data, "PCM".data],
     ["VP".data, "Vice President".data, "Director".data, "Manager".data,
      "Sales".data, "Account".data, "Executive".data])
  else if jsIncludes ql "fintech".data then
    (["Stripe".data, "Square".data, "PayPal".data, "Plaid".data, "Coinbase".data,
      "Robinhood".data, "Chime".data],
     ["VP".data, "Director".data, "Head".data, "Lead".data, "Senior".data,
      "Chief".data, "Executive".data])
  else if jsIncludes ql "tech".data || jsIncludes ql "google".data ||
      jsIncludes ql "microsoft".data then
    (["Google".data, "Microsoft".data, "Meta".data, "Amazon".data, "Apple".data,
      "Netflix".data, "Uber".data],
     ["VP".data, "Director".data, "Head".data, "Lead".data, "Senior".data,
      "Principal".data, "Manager".data, "Engineering".data])
  else
    -- the generic branch reassigns `roleKeywords`, so the pushed title in
    -- `roles0` is discarded here exactly as in every named branch above
    let words := splitRuns isWordSplitChar query
    (companies0, words.filter (fun w => decide (2 < w.length)))

/-- Revision 1's fallback criteria (supabase.ts lines 286-324): employment
status is always `'any'`. -/
def fallbackV1 (query : Str) (currentCompany currentTitle : Option Str) : SearchCriteria :=
  let p := patternV1 query (optPush currentCompany) (optPush currentTitle)
  ⟨p.1, p.2, .any, "Smart fallback search with pattern detection".data⟩

/-- The employment-status derivation of revision 2's fallback (supabase.ts
lines 791-796), applied to the lower-cased query. -/
def deriveStatusV2 (ql : Str) : EmpStatus :=
  if jsIncludes ql "former".data || jsIncludes ql "ex-".data then .former
  else if jsIncludes ql "current".data then .current
  else .any

/-- Common-role words excluded from capitalized-token company extraction in
revision 2's generic branch (supabase.ts line 844). -/
def commonRoles : List Str :=
  ["VP".data, "Director".data, "Manager".data, "Executive".data, "Lead".data,
   "Senior".data, "Chief".data, "Engineer".data, "Product".data]

/-- Role words recognized in revision 2's generic branch (supabase.ts line 853). -/
def roleWords : List Str :=
  ["engineering".data, "product".data, "sales".data, "marketing".data,
   "executive".data, "director".data, "manager".data, "vp".data, "chief".data,
   "ceo".data, "cto".data, "cio".data, "founder".data, "architect".data,
   "consultant".data, "analyst".data]

/-- `word.replace(/[^a-zA-Z]/g, '')`. -/
def cleanWord (w : Str) : Str :=
  w.filter (fun c => ('a' ≤ c ∧ c ≤ 'z') || ('A' ≤ c ∧ c ≤ 'Z'))

/-- `cleaned[0] === cleaned[0].toUpperCase()` on a nonempty cleaned word. -/
def headIsUpper (w : Str) : Bool :=
  match w with
  | [] => false
  | c :: _ => jsToUpperChar c == c

/-- The pattern-detection chain of revision 2's fallback (supabase.ts lines
798-865), returning the `(companies, roleKeywords)` pair; `companies0` and
`roles0` hold the pushed explicit parameters. -/
def patternV2 (query : Str) (companies0 roles0 : List Str) : List Str × List Str :=
  let ql := toLowerStr query
  if jsIncludes ql "big 5".data || jsIncludes ql "executive search firm".data then
    (big5Companies, big5RolesV2)
  else if matchAnyWord ["mckinsey".data, "bain".data, "bcg".data, "deloitte".data,
      "pwc".data, "accenture".data] ql then
    let cs :=
      (if jsIncludes ql "mckinsey".data then ["McKinsey".data, "McKinsey & Company".data] else []) ++
      (if jsIncludes ql "bain".data then ["Bain".data, "Bain & Company".data] else []) ++
      (if jsIncludes ql "bcg".data then ["BCG".data, "Boston Consulting Group".data] else []) ++
      (if jsIncludes ql "deloitte".data then ["Deloitte".data] else []) ++
      (if jsIncludes ql "pwc".data then ["PwC".data, "PricewaterhouseCoopers".data] else []) ++
      (if jsIncludes ql "accenture".data then ["Accenture".data] else [])
    let cs := if jsIncludes ql "consulting".data && cs.isEmpty then
        ["McKinsey".data, "Bain".data, "BCG".data, "Deloitte".data, "PwC".data]
      else cs
    (cs, ["Partner".data, "Principal".data, "Director".data, "VP".data,
          "Manager".data, "Consultant".data])
  else if matchAnyWord ["cdw".data, "shi".data] ql ||
      jsIncludes ql "insight enterprises".data then
    (companies0 ++
      (if jsIncludes ql "cdw".data then ["CDW".data] else []) ++
      (if jsIncludes ql "shi".data then ["SHI".data, "SHI International".data] else []) ++
      (if jsIncludes ql "insight".data then ["Insight".data, "Insight Enterprises".data] else []),
     ["VP".data, "Director".data, "Manager".data, "Sales".data,
      "Account".data, "Solutions".data])
  else if matchAnyWord ["stripe".data, "square".data, "paypal".data, "plaid".data,
      "coinbase".data] ql || jsIncludes ql "fintech".data then
    (companies0 ++
      (if jsIncludes ql "stripe".data then ["Stripe".data] else []) ++
      (if jsIncludes ql "square".data then ["Square".data, "Block".data] else []) ++
      (if jsIncludes ql "paypal".data then ["PayPal".data] else []) ++
      (if jsIncludes ql "plaid".data then ["Plaid".data] else []) ++
      (if jsIncludes ql "coinbase".data then ["Coinbase".data] else []),
     ["VP".data, "Director".data, "Head".data, "Lead".data, "Senior".data,
      "Product".data, "Engineering".data])
  else if matchAnyWord ["google".data, "microsoft".data, "meta".data, "amazon".data,
      "apple".data, "netflix".data] ql then
    (companies0 ++
      (if jsIncludes ql "google".data then ["Google".data, "Alphabet".data] else []) ++
      (if jsIncludes ql "microsoft".data then ["Microsoft".data] else []) ++
      (if jsIncludes ql "meta".data || jsIncludes ql "facebook".data then
        ["Meta".data, "Facebook".data] else []) ++
      (if jsIncludes ql "amazon".data then ["Amazon".data, "AWS".data] else []) ++
      (if jsIncludes ql "apple".data then ["Apple".data] else []) ++
      (if jsIncludes ql "netflix".data then ["Netflix".data] else []),
     ["VP".data, "Director".data, "Head".data, "Lead".data, "Senior".data,
      "Principal".data, "Engineering".data, "Product".data])
  else
    let words := splitRuns isWordSplitChar query
    let cs := companies0 ++ words.filterMap (fun w =>
      let cl := cleanWord w
      if decide (2 < cl.length) && headIsUpper cl && !(commonRoles.contains cl)
      then some cl else none)
    let rs := roles0 ++ words.filter (fun w => roleWords.contains (toLowerStr w))
    if cs.isEmpty && rs.isEmpty then
      (cs, ["VP".data, "Director".data, "Senior".data, "Lead".data, "Manager".data])
    else (cs, rs)

/-- Revision 2's fallback criteria (supabase.ts lines 778-874): the
employment status is derived from the query before — and independently of —
the company/role pattern chain. -/
def fallbackV2 (query : Str) (currentCompany currentTitle : Option Str) : SearchCriteria :=
  let p := patternV2 query (optPush currentCompany) (optPush currentTitle)
  ⟨p.1, p.2, deriveStatusV2 (toLowerStr query),
   "Fallback search with pattern detection and extraction".data⟩

/-- Outcome of the criteria-generation AI call, as distinguished by the code:
no API key; the fetch (or body decode) threw; a non-OK HTTP status; a body
whose text `JSON.parse` rejects; or a body that parses as JSON, carrying
either a well-formed nonempty `searches` list or not (`none`). -/
inductive AiOutcome where
  | noKey
  | fetchThrow
  | notOk
  | okUnparsable
  | okParsed (searches : Option (List SearchCriteria))
deriving DecidableEq

/-- How many times the AI endpoint is called for the given outcome: the code
contains a single un-retried `fetch`, guarded by key presence. -/
def aiAttempts : AiOutcome → Nat
  | .noKey => 0
  | _ => 1

/-- Revision 1's `generateSearchQueries` (supabase.ts lines 257-325): a
parsed body returns `parsed.searches` unvalidated (`none` models the JS
`undefined` when the field is absent or mis-shaped); every other outcome
falls through or is caught, reaching the fallback. -/
def generateSearchQueriesV1 (ai : AiOutcome) (query : Str)
    (currentCompany currentTitle : Option Str) : Option (List SearchCriteria) :=
  match ai with
  | .okParsed s => s
  | _ => some [fallbackV1 query currentCompany currentTitle]

/-- Revision 2's `generateSearchQueries` (supabase.ts lines 591-875): the
response is regex-matched for a `searches` block and its first element is
validated inside the `try`, so only a well-formed nonempty list is returned;
everything else reaches the fallback. -/
def generateSearchQueriesV2 (ai : AiOutcome) (query : Str)
    (currentCompany currentTitle : Option Str) : List SearchCriteria :=
  match ai with
  | .okParsed (some (c :: rest)) => c :: rest
  | _ => [fallbackV2 query currentCompany currentTitle]

/-- Input of `searchExperts` (`ExpertSearchInput`). -/
structure ExpertParams where
  query : Str
  currentCompany : Option Str
  currentTitle : Option Str
  limit : Nat
deriving DecidableEq

/-- The RPC invocation `search_experts_company_role` receives. -/
structure RpcCall where
  companies : List Str
  role_keywords : List Str
  employment_status : EmpStatus
  limit : Nat
deriving DecidableEq

/-- `n || d` for a JS number. -/
def jsOrNat (n d : Nat) : Nat := if n == 0 then d else n

/-- Revision 1's `searchExperts` (supabase.ts lines 341-364) up to the store
call: `searches[0]` on an `undefined` or empty batch throws a `TypeError`
that propagates to the caller. -/
def searchExpertsV1 (ai : AiOutcome) (p : ExpertParams) : Except Str RpcCall :=
  match generateSearchQueriesV1 ai p.query p.currentCompany p.currentTitle with
  | none => .error "TypeError".data
  | some [] => .error "TypeError".data
  | some (c :: _) =>
    .ok ⟨c.companies, c.role_keywords, c.employment_status, jsOrNat p.limit 50⟩

/-! ### Interview store model (`searchInterviews`) and aggregation -/

/-- An `interview_messages` row, restricted to the fields the engine reads
(`InterviewMessage` in types/schema.ts); scores and text fields are nullable.
`created_at` is modelled as a timestamp (ISO-8601 strings are
order-isomorphic to their times). -/
structure InterviewRecord where
  id : Nat
  meeting_id : Option Str
  expert_name : Option Str
  expert_profile : Option Str
  question_text : Option Str
  answer_summary : Option Str
  consensus_score : Option ℚ
  credibility_score : Option ℚ
  completion_score : Option ℚ
  created_at : Nat
  project_id : Option Int
deriving DecidableEq

/-- `InterviewSearchInput` (utils/validation.ts lines 3-12); the date bounds
are timestamps like `created_at`. -/
structure SearchParams where
  expertName : Option Str
  projectId : Option Int
  questionTopic : Option Str
  dateFrom : Option Nat
  dateTo : Option Nat
  minConsensusScore : Option ℚ
  minCredibilityScore : Option ℚ
  limit : Nat
deriving DecidableEq

/-- JS truthiness of an optional string: present and nonempty. -/
def jsTruthyStr (o : Option Str) : Bool :=
  match o with
  | some s => !s.isEmpty
  | none => false

/-- JS truthiness of an optional number: present and nonzero. -/
def jsTruthyQ (o : Option ℚ) : Bool :=
  match o with
  | some v => decide (v ≠ 0)
  | none => false

/-- JS truthiness of an optional integer: present and nonzero. -/
def jsTruthyInt (o : Option Int) : Bool :=
  match o with
  | some v => decide (v ≠ 0)
  | none => false

/-- SQL `column ILIKE '%pat%'` on a nullable text column: case-insensitive
substring match, with `NULL` never matching. -/
def optIlike (field : Option Str) (pat : Str) : Bool :=
  match field with
  | some t => jsIncludes (toLowerStr t) (toLowerStr pat)
  | none => false

/-- SQL `column >= v` on a nullable numeric column: `NULL` never satisfies. -/
def optGeQ (field : Option ℚ) (v : ℚ) : Bool :=
  match field with
  | some x => decide (v ≤ x)
  | none => false

/-- Insert a record into a list sorted by `created_at` descending. -/
def insertDesc (r : InterviewRecord) : List InterviewRecord → List InterviewRecord
  | [] => [r]
  | x :: xs => if r.created_at ≤ x.created_at then x :: insertDesc r xs
               else r :: x :: xs

/-- `order('created_at', { ascending: false })`: sort newest first. -/
def sortByCreatedDesc : List InterviewRecord → List InterviewRecord
  | [] => []
  | r :: rs => insertDesc r (sortByCreatedDesc rs)

/-- Revision 1's `searchInterviews` (supabase.ts lines 28-98) as a pure
function of the store contents: the conjunctive filter chain with its JS
truthiness guards, the topic normalizer, the descending date order and the
limit. -/
def searchInterviewsV1 (store : List InterviewRecord) (p : SearchParams) :
    List InterviewRecord :=
  let q := store
  let q := if jsTruthyStr p.expertName then
      q.filter (fun r => optIlike r.expert_name (p.expertName.getD [])) else q
  let q := if jsTruthyInt p.projectId then
      q.filter (fun r => match r.project_id with
        | some v => v == p.projectId.getD 0
        | none => false) else q
  let q := if jsTruthyStr p.questionTopic then
      let t := normalizeTopicV1 (p.questionTopic.getD [])
      q.filter (fun r => optIlike r.question_text t || optIlike r.answer_summary t)
    else q
  let q := if p.dateFrom.isSome then
      q.filter (fun r => p.dateFrom.getD 0 ≤ r.created_at) else q
  let q := if p.dateTo.isSome then
      q.filter (fun r => r.created_at ≤ p.dateTo.getD 0) else q
  let q := if jsTruthyQ p.minConsensusScore then
      q.filter (fun r => optGeQ r.consensus_score (p.minConsensusScore.getD 0)) else q
  let q := if jsTruthyQ p.minCredibilityScore then
      q.filter (fun r => optGeQ r.credibility_score (p.minCredibilityScore.getD 0)) else q
  (sortByCreatedDesc q).take p.limit

/-- The not-null score projection of `getInterviewInsights` (supabase.ts
lines 403-405): `filter(s !== null).map(s!)`. -/
def validScores (get : InterviewRecord → Option ℚ) (l : List InterviewRecord) : List ℚ :=
  (l.filter (fun i => (get i).isSome)).map (fun i => (get i).getD 0)

/-- One mean of `getInterviewInsights` (supabase.ts lines 407-417):
the mean of the not-null scores, `0` when there are none. -/
def avgValid (get : InterviewRecord → Option ℚ) (l : List InterviewRecord) : ℚ :=
  let v := validScores get l
  if 0 < v.length then v.sum / (v.length : ℚ) else 0

/-- The three averages of `getInterviewInsights` (consensus, credibility,
completion).  The `interviews.length === 0` early return of the source
yields `0`s, which coincides with `avgValid` on the empty list. -/
def insightsAverages (l : List InterviewRecord) : ℚ × ℚ × ℚ :=
  (avgValid (fun i => i.consensus_score) l,
   avgValid (fun i => i.credibility_score) l,
   avgValid (fun i => i.completion_score) l)

/-- JS `x || 0` on a number that is not NaN (the NaN-producing `0/0` of the
source is already `0` in `ℚ`, matching `NaN || 0 === 0`). -/
def jsOr0 (x : ℚ) : ℚ := if x == 0 then 0 else x

/-- The truthiness-filtered mean on a bare score list (helper used to reason
about `avgTruthy`). -/
def avgTruthyOpt (scores : List (Option ℚ)) : ℚ :=
  let t := scores.filter jsTruthyQ
  jsOr0 ((t.map (fun o => o.getD 0)).sum / (t.length : ℚ))

/-- One mean of the `overall_quality` / `quality_metrics` blocks
(tools/interviews.ts lines 353-358, 240-244):
`filter(i => i.score).reduce(sum)/filter(i => i.score).length || 0` —
the filter is a truthiness test, so `null` and `0` scores are both dropped. -/
def avgTruthy (get : InterviewRecord → Option ℚ) (l : List InterviewRecord) : ℚ :=
  let t := l.filter (fun i => jsTruthyQ (get i))
  jsOr0 ((t.map (fun i => (get i).getD 0)).sum / (t.length : ℚ))

/-- The `overall_quality` triple of `get_full_interview` (consensus,
credibility, completion), identical to the `quality_metrics` block of
`summarize_interviews`. -/
def overallQuality (l : List InterviewRecord) : ℚ × ℚ × ℚ :=
  (avgTruthy (fun i => i.consensus_score) l,
   avgTruthy (fun i => i.credibility_score) l,
   avgTruthy (fun i => i.completion_score) l)

/-! ### Concrete inputs used by witnesses and counterexamples -/

/-- Spec end-to-end scenario 3's topic (124 characters). -/
def adobeTopic : Str :=
  ("What do customers think about Adobe Photoshop pricing and subscription " ++
   "value compared to Capture One over the last two years").data

/-- A topic longer than 50 characters whose only non-filler token contains an
apostrophe, so sanitization splits it into the stop-words `the what`. -/
def apostropheTopic : Str :=
  "the".data ++ [apos] ++
  "what interviews with customers about software process find please".data

/-- Spec end-to-end scenario 1's query. -/
def big5Query : Str := "Big 5 search firms".data

/-- A "big 5" query that also contains "former". -/
def formerBig5Query : Str := "former big 5 partners".data

/-- A query containing "former" that hits revision 1's big-tech branch. -/
def formerGoogleQuery : Str := "former google engineers".data

/-- An interview record with the given scores and all other fields trivial. -/
def mkScored (cons cred comp : Option ℚ) : InterviewRecord :=
  ⟨0, none, none, none, none, none, cons, cred, comp, 0, none⟩

/-- Record set with credibility scores `[8, null, 6]`. -/
def recsCred8null6 : List InterviewRecord :=
  [mkScored none (some 8) none, mkScored none none none, mkScored none (some 6) none]

/-- Record set with credibility `[9, 7, null]` and consensus `[3, null, null]`. -/
def recsScenario4 : List InterviewRecord :=
  [mkScored (some 3) (some 9) none, mkScored none (some 7) none,
   mkScored none none none]

/-- Record set with credibility scores `[0, 8]`: a legitimate zero score. -/
def recsCredZero8 : List InterviewRecord :=
  [mkScored none (some 0) none, mkScored none (some 8) none]

/-- The employment-status rule exactly as the claim words it: `former` when
the query contains "former" or "ex-", `current` when it contains "current"
and not "former"/"ex-", and `any` otherwise.  Stated separately from
`deriveStatusV2` so the code's derivation can be compared against it. -/
def claimEmploymentStatus (q : Str) : EmpStatus :=
  let ql := toLowerStr q
  if jsIncludes ql "former".data || jsIncludes ql "ex-".data then .former
  else if jsIncludes ql "current".data &&
      !(jsIncludes ql "former".data || jsIncludes ql "ex-".data) then .current
  else .any

/-! ### Helper lemmas -/

theorem mem_replaceChars_not_bad {s : Str} {c : Char}
    (h : c ∈ replaceChars isBadChar ' ' s) : isBadChar c = false := by
  simp only [replaceChars, List.mem_map] at h
  obtain ⟨d, _, rfl⟩ := h
  by_cases hb : isBadChar d
  · rw [if_pos hb]
    decide
  · rw [if_neg hb]
    exact Bool.eq_false_iff.mpr hb

theorem mem_of_mem_trimStr {l : Str} {c : Char} (h : c ∈ trimStr l) : c ∈ l := by
  simp only [trimStr, List.mem_reverse] at h
  have h1 : c ∈ (l.dropWhile jsIsWs).reverse := List.dropWhile_subset jsIsWs h
  rw [List.mem_reverse] at h1
  exact List.dropWhile_subset jsIsWs h1

theorem mem_sanitize_not_bad {s : Str} {c : Char}
    (h : c ∈ sanitize s) : isBadChar c = false :=
  mem_replaceChars_not_bad (mem_of_mem_trimStr h)

theorem head?_dropWhile_false {p : Char → Bool} {c : Char} :
    ∀ {l : Str}, (l.dropWhile p).head? = some c → p c = false
  | [], h => by simp at h
  | x :: xs, h => by
    by_cases hx : p x
    · rw [List.dropWhile_cons_of_pos hx] at h
      exact head?_dropWhile_false h
    · rw [List.dropWhile_cons_of_neg hx] at h
      cases h
      exact Bool.of_not_eq_true hx

theorem trimStr_ne_nil {l : Str} {c : Char} (hc : c ∈ l) (hw : jsIsWs c = false) :
    trimStr l ≠ [] := by
  intro h
  simp only [trimStr, List.reverse_eq_nil_iff] at h
  have hall : ∀ x ∈ (l.dropWhile jsIsWs).reverse, jsIsWs x = true :=
    List.dropWhile_eq_nil_iff.mp h
  rcases ha : l.dropWhile jsIsWs with _ | ⟨y, ys⟩
  · have := (List.dropWhile_eq_nil_iff.mp ha) c hc
    rw [hw] at this
    exact Bool.false_ne_true this
  · have hy : jsIsWs y = false := head?_dropWhile_false (by rw [ha]; rfl)
    have hmem : y ∈ (l.dropWhile jsIsWs).reverse := by
      rw [ha]; simp
    have := hall y hmem
    rw [hy] at this
    exact Bool.false_ne_true this

theorem trimStr_eq_self {l : Str}
    (h1 : ∀ c, l.head? = some c → jsIsWs c = false)
    (h2 : ∀ c, l.getLast? = some c → jsIsWs c = false) :
    trimStr l = l := by
  rcases l with _ | ⟨x, xs⟩
  · rfl
  · have hx : jsIsWs x = false := h1 x rfl
    unfold trimStr
    rw [List.dropWhile_cons_of_neg (by simp [hx])]
    rcases hr : (x :: xs).reverse with _ | ⟨y, ys⟩
    · simp at hr
    · have hy : (x :: xs).getLast? = some y := by
        rw [List.getLast?_eq_head?_reverse, hr]; rfl
      have hyw : jsIsWs y = false := h2 y hy
      have hdw : List.dropWhile jsIsWs (y :: ys) = y :: ys :=
        List.dropWhile_cons_of_neg (by simp [hyw])
      rw [hdw, ← hr, List.reverse_reverse]

theorem head?_trimStr_not_ws {l : Str} {c : Char}
    (h : (trimStr l).head? = some c) : jsIsWs c = false := by
  simp only [trimStr] at h
  rw [List.head?_reverse] at h
  set b := ((l.dropWhile jsIsWs).reverse).dropWhile jsIsWs with hb
  have hsuf : b <:+ (l.dropWhile jsIsWs).reverse := List.dropWhile_suffix _
  obtain ⟨pre, hpre⟩ := hsuf
  have hbne : b ≠ [] := by
    intro hnil
    rw [hnil] at h
    simp at h
  have := List.getLast?_append_of_ne_nil pre hbne
  rw [hpre] at this
  rw [← this, List.getLast?_reverse] at h
  exact head?_dropWhile_false h

theorem getLast?_trimStr_not_ws {l : Str} {c : Char}
    (h : (trimStr l).getLast? = some c) : jsIsWs c = false := by
  simp only [trimStr] at h
  rw [List.getLast?_reverse] at h
  exact head?_dropWhile_false h

theorem trimStr_idem (l : Str) : trimStr (trimStr l) = trimStr l :=
  trimStr_eq_self (fun _ h => head?_trimStr_not_ws h)
    (fun _ h => getLast?_trimStr_not_ws h)

theorem replaceChars_eq_self {p : Char → Bool} {r : Char} {l : Str}
    (h : ∀ c ∈ l, p c = false) : replaceChars p r l = l := by
  unfold replaceChars
  rw [List.map_congr_left (fun c hc => by rw [h c hc])]
  exact List.map_id l

theorem sanitize_idem (s : Str) : sanitize (sanitize s) = sanitize s := by
  unfold sanitize
  rw [replaceChars_eq_self (fun c hc => mem_replaceChars_not_bad
    (mem_of_mem_trimStr hc))]
  exact trimStr_idem _

theorem trimStr_length_le (l : Str) : (trimStr l).length ≤ l.length := by
  unfold trimStr
  rw [List.length_reverse]
  calc (((l.dropWhile jsIsWs).reverse).dropWhile jsIsWs).length
      ≤ (l.dropWhile jsIsWs).reverse.length := (List.dropWhile_sublist _).length_le
    _ = (l.dropWhile jsIsWs).length := by simp
    _ ≤ l.length := (List.dropWhile_sublist _).length_le

theorem sanitize_length_le (s : Str) : (sanitize s).length ≤ s.length := by
  unfold sanitize
  calc (trimStr (replaceChars isBadChar ' ' s)).length
      ≤ (replaceChars isBadChar ' ' s).length := trimStr_length_le _
    _ = s.length := List.length_map _ _

theorem normalizeTopicV1_short {x : Str} (h : x.length ≤ 50) :
    normalizeTopicV1 x = sanitize x := by
  unfold normalizeTopicV1 searchTermsV1
  rw [if_neg (by omega)]

theorem validScores_eq_filterMap (get : InterviewRecord → Option ℚ) :
    ∀ l : List InterviewRecord, validScores get l = l.filterMap get := by
  intro l
  induction l with
  | nil => rfl
  | cons r rs ih =>
    unfold validScores at ih ⊢
    rcases h : get r with _ | v
    · simpa [List.filter_cons, List.filterMap_cons, h] using ih
    · simp [List.filter_cons, List.filterMap_cons, h, ih]

theorem avgValid_eq_ratio (get : InterviewRecord → Option ℚ)
    (l : List InterviewRecord) :
    avgValid get l = (l.filterMap get).sum / ((l.filterMap get).length : ℚ) := by
  unfold avgValid
  rw [validScores_eq_filterMap]
  by_cases h : 0 < (l.filterMap get).length
  · rw [if_pos h]
  · rw [if_neg h]
    have : l.filterMap get = [] := by
      cases hl : l.filterMap get
      · rfl
      · rw [hl] at h; simp at h
    rw [this]
    simp

theorem avgTruthy_eq_opt (get : InterviewRecord → Option ℚ)
    (l : List InterviewRecord) : avgTruthy get l = avgTruthyOpt (l.map get) := by
  simp only [avgTruthy, avgTruthyOpt, List.filter_map, List.map_map,
    List.length_map, Function.comp_def]

theorem avgTruthyOpt_swap_not_truthy {x y : Option ℚ}
    (hx : jsTruthyQ x = false) (hy : jsTruthyQ y = false)
    (a b : List (Option ℚ)) :
    avgTruthyOpt (a ++ x :: b) = avgTruthyOpt (a ++ y :: b) := by
  simp only [avgTruthyOpt, List.filter_append, List.filter_cons, hx, hy]
  simp

theorem avgTruthy_all_false {get : InterviewRecord → Option ℚ}
    {l : List InterviewRecord} (h : ∀ i ∈ l, jsTruthyQ (get i) = false) :
    avgTruthy get l = 0 := by
  unfold avgTruthy
  have : l.filter (fun i => jsTruthyQ (get i)) = [] := by
    rw [List.filter_eq_nil_iff]
    intro a ha
    rw [h a ha]
    exact Bool.false_ne_true
  rw [this]
  simp [jsOr0]

theorem char_toNat_le_of_le {a b : Char} (h : a ≤ b) : a.toNat ≤ b.toNat := by
  rw [Char.le_def, UInt32.le_def, BitVec.le_def] at h
  exact h

theorem char_toNat_ofNat_lt {n : Nat} (h : n < 55296) : (Char.ofNat n).toNat = n := by
  have hv : n.isValidChar := Or.inl h
  unfold Char.ofNat
  rw [dif_pos hv]
  rfl

theorem isBadChar_jsToLowerChar (d : Char) :
    isBadChar (jsToLowerChar d) = isBadChar d := by
  unfold jsToLowerChar
  by_cases h : 'A' ≤ d ∧ d ≤ 'Z'
  · rw [if_pos h]
    have hb1 : 65 ≤ d.toNat := char_toNat_le_of_le h.1
    have hb2 : d.toNat ≤ 90 := char_toNat_le_of_le h.2
    have hofn : (Char.ofNat (d.toNat + 32)).toNat = d.toNat + 32 :=
      char_toNat_ofNat_lt (by omega)
    have step : ∀ e : Char, e.toNat < 97 → (Char.ofNat (d.toNat + 32) == e) = false := by
      intro e he
      rw [beq_eq_false_iff_ne]
      intro heq
      have h3 := congrArg Char.toNat heq
      rw [hofn] at h3
      omega
    have step2 : ∀ e : Char, e.toNat < 65 ∨ 90 < e.toNat → (d == e) = false := by
      intro e he
      rw [beq_eq_false_iff_ne]
      intro heq
      have h3 := congrArg Char.toNat heq
      omega
    unfold isBadChar
    rw [step ';' (by decide), step apos (by decide), step dquote (by decide),
      step bslash (by decide), step2 ';' (by decide), step2 apos (by decide),
      step2 dquote (by decide), step2 bslash (by decide)]
  · rw [if_neg h]

theorem mem_stripParensAux {c : Char} :
    ∀ (s : Str) (buf : Option Str), c ∈ stripParensAux buf s →
      c ∈ s ∨ c = ' ' ∨ ∃ acc, buf = some acc ∧ (c ∈ acc ∨ c = '(')
  | [], none, h => by simp [stripParensAux] at h
  | [], some acc, h => by
    rw [stripParensAux] at h
    rcases List.mem_cons.mp h with rfl | h2
    · exact Or.inr (Or.inr ⟨acc, rfl, Or.inr rfl⟩)
    · exact Or.inr (Or.inr ⟨acc, rfl, Or.inl (List.mem_reverse.mp h2)⟩)
  | d :: rest, none, h => by
    rw [stripParensAux] at h
    by_cases hd : d = '('
    · rw [if_pos hd] at h
      rcases mem_stripParensAux rest (some []) h with h2 | h2 | ⟨acc, hacc, h3⟩
      · exact Or.inl (List.mem_cons_of_mem d h2)
      · exact Or.inr (Or.inl h2)
      · cases hacc
        rcases h3 with h4 | rfl
        · simp at h4
        · exact Or.inl (by rw [hd]; exact List.mem_cons_self _ _)
    · rw [if_neg hd] at h
      rcases List.mem_cons.mp h with rfl | h2
      · exact Or.inl (List.mem_cons_self _ _)
      · rcases mem_stripParensAux rest none h2 with h3 | h3 | ⟨acc, hacc, h4⟩
        · exact Or.inl (List.mem_cons_of_mem d h3)
        · exact Or.inr (Or.inl h3)
        · cases hacc
  | d :: rest, some acc, h => by
    rw [stripParensAux] at h
    by_cases hd : d = ')'
    · rw [if_pos hd] at h
      rcases List.mem_cons.mp h with rfl | h2
      · exact Or.inr (Or.inl rfl)
      · rcases mem_stripParensAux rest none h2 with h3 | h3 | ⟨acc2, hacc, h4⟩
        · exact Or.inl (List.mem_cons_of_mem d h3)
        · exact Or.inr (Or.inl h3)
        · cases hacc
    · rw [if_neg hd] at h
      rcases mem_stripParensAux rest (some (d :: acc)) h
        with h2 | h2 | ⟨acc2, hacc, h3⟩
      · exact Or.inl (List.mem_cons_of_mem d h2)
      · exact Or.inr (Or.inl h2)
      · cases hacc
        rcases h3 with h4 | rfl
        · rcases List.mem_cons.mp h4 with rfl | h5
          · exact Or.inl (List.mem_cons_self _ _)
          · exact Or.inr (Or.inr ⟨acc, rfl, Or.inl h5⟩)
        · exact Or.inr (Or.inr ⟨acc, rfl, Or.inr rfl⟩)

theorem mem_stripParens {c : Char} {s : Str} (h : c ∈ stripParens s) :
    c ∈ s ∨ c = ' ' := by
  rcases mem_stripParensAux s none h with h2 | h2 | ⟨acc, hacc, h3⟩
  · exact Or.inl h2
  · exact Or.inr h2
  · cases hacc

theorem splitRunsAux_sep_false (p : Char → Bool) :
    ∀ (s : Str) (inSep : Bool) (cur : Str), (∀ c ∈ cur, p c = false) →
      ∀ t ∈ splitRunsAux p inSep cur s, ∀ c ∈ t, p c = false
  | [], _, cur, hcur => by
    intro t ht c hc
    rcases List.mem_singleton.mp ht with rfl
    exact hcur c (List.mem_reverse.mp hc)
  | d :: rest, inSep, cur, hcur => by
    intro t ht c hc
    rw [splitRunsAux] at ht
    by_cases hp : p d
    · rw [if_pos hp] at ht
      cases inSep with
      | true =>
        rw [if_pos rfl] at ht
        exact splitRunsAux_sep_false p rest true cur hcur t ht c hc
      | false =>
        rw [if_neg (by simp)] at ht
        rcases List.mem_cons.mp ht with rfl | h2
        · exact hcur c (List.mem_reverse.mp hc)
        · exact splitRunsAux_sep_false p rest true [] (by simp) t h2 c hc
    · rw [if_neg hp] at ht
      refine splitRunsAux_sep_false p rest false (d :: cur) ?_ t ht c hc
      intro e he
      rcases List.mem_cons.mp he with rfl | h3
      · exact Bool.of_not_eq_true hp
      · exact hcur e h3

theorem splitRuns_sep_false (p : Char → Bool) (s : Str) :
    ∀ t ∈ splitRuns p s, ∀ c ∈ t, p c = false :=
  splitRunsAux_sep_false p s false [] (by simp)

theorem splitRunsAux_subset (p : Char → Bool) :
    ∀ (s : Str) (inSep : Bool) (cur : Str),
      ∀ t ∈ splitRunsAux p inSep cur s, ∀ c ∈ t, c ∈ cur ∨ c ∈ s
  | [], _, cur => by
    intro t ht c hc
    rcases List.mem_singleton.mp ht with rfl
    exact Or.inl (List.mem_reverse.mp hc)
  | d :: rest, inSep, cur => by
    intro t ht c hc
    rw [splitRunsAux] at ht
    by_cases hp : p d
    · rw [if_pos hp] at ht
      cases inSep with
      | true =>
        rw [if_pos rfl] at ht
        rcases splitRunsAux_subset p rest true cur t ht c hc with h2 | h2
        · exact Or.inl h2
        · exact Or.inr (List.mem_cons_of_mem d h2)
      | false =>
        rw [if_neg (by simp)] at ht
        rcases List.mem_cons.mp ht with rfl | h2
        · exact Or.inl (List.mem_reverse.mp hc)
        · rcases splitRunsAux_subset p rest true [] t h2 c hc with h3 | h3
          · simp at h3
          · exact Or.inr (List.mem_cons_of_mem d h3)
    · rw [if_neg hp] at ht
      rcases splitRunsAux_subset p rest false (d :: cur) t ht c hc with h2 | h2
      · rcases List.mem_cons.mp h2 with rfl | h3
        · exact Or.inr (List.mem_cons_self _ _)
        · exact Or.inl h3
      · exact Or.inr (List.mem_cons_of_mem d h2)

theorem splitRuns_subset (p : Char → Bool) (s : Str) :
    ∀ t ∈ splitRuns p s, ∀ c ∈ t, c ∈ s := by
  intro t ht c hc
  rcases splitRunsAux_subset p s false [] t ht c hc with h | h
  · simp at h
  · exact h

theorem splitRunsAux_all_false {p : Char → Bool} :
    ∀ {l : Str} (cur : Str), (∀ c ∈ l, p c = false) →
      splitRunsAux p false cur l = [cur.reverse ++ l]
  | [], cur, _ => by simp [splitRunsAux]
  | c :: r, cur, h => by
    have hc : p c = false := h c (List.mem_cons_self c r)
    rw [splitRunsAux, if_neg (by simp [hc]),
      splitRunsAux_all_false (c :: cur) (fun d hd => h d (List.mem_cons_of_mem c hd))]
    simp

theorem splitRuns_all_false {p : Char → Bool} {l : Str}
    (h : ∀ c ∈ l, p c = false) : splitRuns p l = [l] := by
  rw [splitRuns, splitRunsAux_all_false [] h]
  rfl

theorem splitRunsAux_append_sep {p : Char → Bool} {sep : Char}
    (hsep : p sep = true) (s : Str) :
    ∀ (t : Str) (cur : Str), (∀ c ∈ t, p c = false) →
      splitRunsAux p false cur (t ++ sep :: s) =
        (cur.reverse ++ t) :: splitRunsAux p true [] s
  | [], cur, _ => by
    rw [List.nil_append, splitRunsAux, if_pos hsep, if_neg (by simp)]
    simp
  | c :: tr, cur, h => by
    have hc : p c = false := h c (List.mem_cons_self c tr)
    rw [List.cons_append, splitRunsAux, if_neg (by simp [hc]),
      splitRunsAux_append_sep hsep s tr (c :: cur)
        (fun d hd => h d (List.mem_cons_of_mem c hd))]
    simp

theorem splitRuns_skip_eq {p : Char → Bool} :
    ∀ {s : Str}, (∀ c, s.head? = some c → p c = false) →
      splitRunsAux p true [] s = splitRuns p s
  | [], _ => rfl
  | c :: rest, h => by
    have hc : p c = false := h c rfl
    rw [splitRunsAux, if_neg (by simp [hc]), splitRuns, splitRunsAux,
      if_neg (by simp [hc])]

theorem joinSpace_cons_head (c : Char) (w : Str) (rest : List Str) :
    ∃ tail, joinSpace ((c :: w) :: rest) = c :: tail := by
  cases rest
  · exact ⟨w, rfl⟩
  · exact ⟨_, rfl⟩

theorem joinSpace_head_mem (u : Str) (rest : List Str) (hu : u ≠ []) :
    ∃ c tail, joinSpace (u :: rest) = c :: tail ∧ c ∈ u := by
  rcases u with _ | ⟨c, w⟩
  · exact absurd rfl hu
  · obtain ⟨tail, htail⟩ := joinSpace_cons_head c w rest
    exact ⟨c, tail, htail, List.mem_cons_self c w⟩

theorem splitRuns_joinSpace :
    ∀ ts : List Str, (∀ t ∈ ts, t ≠ [] ∧ ∀ c ∈ t, jsIsWs c = false) → ts ≠ [] →
      splitRuns jsIsWs (joinSpace ts) = ts
  | [], _, hne => absurd rfl hne
  | [t], h, _ => by
    rw [show joinSpace [t] = t from rfl]
    exact splitRuns_all_false (h t (List.mem_cons_self t [])).2
  | t :: t₂ :: rest, h, _ => by
    have ht := h t (List.mem_cons_self t _)
    have ht₂ := h t₂ (List.mem_cons_of_mem t (List.mem_cons_self t₂ rest))
    rw [show joinSpace (t :: t₂ :: rest) = t ++ ' ' :: joinSpace (t₂ :: rest)
      from rfl]
    rw [splitRuns, splitRunsAux_append_sep (by decide) _ t [] ht.2]
    obtain ⟨c₂, tail, htail, hc₂mem⟩ := joinSpace_head_mem t₂ rest ht₂.1
    have hhead : ∀ c, (joinSpace (t₂ :: rest)).head? = some c → jsIsWs c = false := by
      intro c hhc
      rw [htail] at hhc
      cases hhc
      exact ht₂.2 _ hc₂mem
    rw [splitRuns_skip_eq hhead,
      splitRuns_joinSpace (t₂ :: rest)
        (fun u hu => h u (List.mem_cons_of_mem t hu)) (by simp)]
    simp

theorem wordTokens_joinSpace {ts : List Str}
    (h : ∀ t ∈ ts, t ≠ [] ∧ ∀ c ∈ t, jsIsWs c = false) :
    wordTokens (joinSpace ts) = ts := by
  rcases hts : ts with _ | ⟨t, rest⟩
  · unfold wordTokens
    rw [show joinSpace [] = [] from rfl, splitRuns_all_false (by simp)]
    rfl
  · rw [← hts]
    unfold wordTokens
    rw [splitRuns_joinSpace ts h (by rw [hts]; simp)]
    rw [List.filter_eq_self]
    intro u hu
    simp [(h u hu).1]

theorem mem_joinSpace {c : Char} :
    ∀ {ts : List Str}, c ∈ joinSpace ts → (∃ t ∈ ts, c ∈ t) ∨ c = ' '
  | [], h => by simp [joinSpace] at h
  | [t], h => Or.inl ⟨t, List.mem_cons_self t [], h⟩
  | t :: t₂ :: rest, h => by
    rw [show joinSpace (t :: t₂ :: rest) = t ++ ' ' :: joinSpace (t₂ :: rest)
      from rfl] at h
    rcases List.mem_append.mp h with h1 | h1
    · exact Or.inl ⟨t, List.mem_cons_self t _, h1⟩
    · rcases List.mem_cons.mp h1 with rfl | h2
      · exact Or.inr rfl
      · rcases mem_joinSpace h2 with ⟨u, hu, hcu⟩ | hsp
        · exact Or.inl ⟨u, List.mem_cons_of_mem t hu, hcu⟩
        · exact Or.inr hsp

theorem getLast?_joinSpace :
    ∀ ts : List Str, (∀ t ∈ ts, t ≠ []) → ts ≠ [] →
      ∃ t ∈ ts, (joinSpace ts).getLast? = t.getLast?
  | [], _, hne => absurd rfl hne
  | [t], _, _ => ⟨t, List.mem_cons_self t [], rfl⟩
  | t :: t₂ :: rest, h, _ => by
    obtain ⟨u, hu, hlast⟩ := getLast?_joinSpace (t₂ :: rest)
      (fun v hv => h v (List.mem_cons_of_mem t hv)) (by simp)
    refine ⟨u, List.mem_cons_of_mem t hu, ?_⟩
    rw [show joinSpace (t :: t₂ :: rest) = t ++ ' ' :: joinSpace (t₂ :: rest)
      from rfl]
    rw [List.getLast?_append_of_ne_nil t (by simp)]
    have ht₂ := h t₂ (List.mem_cons_of_mem t (List.mem_cons_self t₂ rest))
    obtain ⟨c₂, tail, htail, _⟩ := joinSpace_head_mem t₂ rest ht₂
    rw [htail, List.getLast?_cons_cons, ← htail, hlast]

theorem trimStr_joinSpace {ts : List Str}
    (h : ∀ t ∈ ts, t ≠ [] ∧ ∀ c ∈ t, jsIsWs c = false) :
    trimStr (joinSpace ts) = joinSpace ts := by
  rcases hts : ts with _ | ⟨t, rest⟩
  · rfl
  · apply trimStr_eq_self
    · intro c hc
      have ht := h t (by rw [hts]; exact List.mem_cons_self t rest)
      obtain ⟨c₀, tail, htail, hc₀mem⟩ := joinSpace_head_mem t rest ht.1
      rw [htail] at hc
      cases hc
      exact ht.2 _ hc₀mem
    · intro c hc
      obtain ⟨u, hu, hlast⟩ := getLast?_joinSpace ts (fun v hv => (h v hv).1)
        (by rw [hts]; simp)
      rw [hts] at hlast
      rw [hlast] at hc
      exact (h u hu).2 c (List.mem_of_getLast?_eq_some hc)

theorem sanitize_joinSpace {ts : List Str}
    (h : ∀ t ∈ ts, t ≠ [] ∧ ∀ c ∈ t, jsIsWs c = false ∧ isBadChar c = false) :
    sanitize (joinSpace ts) = joinSpace ts := by
  unfold sanitize
  rw [replaceChars_eq_self]
  · exact trimStr_joinSpace (fun t ht => ⟨(h t ht).1, fun c hc => ((h t ht).2 c hc).1⟩)
  · intro c hc
    rcases mem_joinSpace hc with ⟨t, ht, hct⟩ | rfl
    · exact ((h t ht).2 c hct).2
    · decide

theorem avgTruthy_mid_eq (get : InterviewRecord → Option ℚ)
    (l1 l2 : List InterviewRecord) (r1 r2 : InterviewRecord)
    (h : get r1 = get r2) :
    avgTruthy get (l1 ++ r1 :: l2) = avgTruthy get (l1 ++ r2 :: l2) := by
  rw [avgTruthy_eq_opt, avgTruthy_eq_opt, List.map_append, List.map_append,
    List.map_cons, List.map_cons, h]

theorem avgTruthy_mid_not_truthy (get : InterviewRecord → Option ℚ)
    (l1 l2 : List InterviewRecord) (r1 r2 : InterviewRecord)
    (h1 : jsTruthyQ (get r1) = false) (h2 : jsTruthyQ (get r2) = false) :
    avgTruthy get (l1 ++ r1 :: l2) = avgTruthy get (l1 ++ r2 :: l2) := by
  rw [avgTruthy_eq_opt, avgTruthy_eq_opt, List.map_append, List.map_append,
    List.map_cons, List.map_cons]
  exact avgTruthyOpt_swap_not_truthy h1 h2 _ _

/-! ### Claim theorems -/

/-- C1: every topic search string that `searchInterviews` (either revision)
submits as a substring filter is free of semicolons, single quotes, double
quotes and backslashes: the sanitizer replaces all four before the filter is
built. -/
theorem c1_sanitize_removes_injection_chars :
    ∀ topic : Str,
      ((normalizeTopicV1 topic).all fun c => !(isBadChar c)) = true ∧
      ∀ o : SemOutcome,
        ((normalizeTopicV2 o topic).all fun c => !(isBadChar c)) = true := by
  intro topic
  constructor
  · rw [List.all_eq_true]
    intro c hc
    simp [mem_sanitize_not_bad hc]
  · intro o
    rw [List.all_eq_true]
    intro c hc
    simp [mem_sanitize_not_bad hc]

/-- C7 counterexample: the raw topic `";"` is nonempty (so the topic filter
branch runs), yet the normalizer yields the empty search string — the claim
that the normalizer never yields an empty string is false. -/
theorem c7_counterexample :
    ";".data ≠ [] ∧ normalizeTopicV1 ";".data = [] := by decide

/-- C7 amended: the AI-expansion step does return the original raw topic
unmodified on every failure (missing key, thrown fetch, non-OK response);
and the deterministic sanitize path yields a nonempty search string whenever
the (≤ 50-character) topic contains at least one character that is neither
whitespace nor one of the four sanitized-away characters.  A topic consisting
only of whitespace and `; ' " \` characters, however, normalizes to the empty
string. -/
theorem c7_nonempty_normalization :
    (∀ q : Str,
      generateSemanticSearchTerms .noKey q = q ∧
      generateSemanticSearchTerms .fetchThrow q = q ∧
      generateSemanticSearchTerms .notOk q = q) ∧
    (∀ (topic : Str) (c : Char), c ∈ topic → jsIsWs c = false →
      isBadChar c = false → topic.length ≤ 50 → normalizeTopicV1 topic ≠ []) := by
  constructor
  · intro q
    exact ⟨rfl, rfl, rfl⟩
  · intro topic c hc hw hb hlen
    rw [normalizeTopicV1_short hlen]
    unfold sanitize
    have hc' : c ∈ replaceChars isBadChar ' ' topic := by
      unfold replaceChars
      rw [List.mem_map]
      exact ⟨c, hc, by rw [hb]; rfl⟩
    exact trimStr_ne_nil hc' hw

/-- C7 witness: instantiating the amended claim at the topic `"fintech"`. -/
theorem c7_nonempty_normalization_witness :
    generateSemanticSearchTerms .noKey "fintech".data = "fintech".data ∧
    normalizeTopicV1 "fintech".data ≠ [] :=
  ⟨(c7_nonempty_normalization.1 "fintech".data).1,
   c7_nonempty_normalization.2 "fintech".data 'f' (by decide) (by decide)
     (by decide) (by decide)⟩

/-- C8: the deterministic (non-AI) topic normalization of revision 1 is
idempotent on topics of at most 50 characters. -/
theorem c8_normalize_idempotent :
    ∀ x : Str, x.length ≤ 50 →
      normalizeTopicV1 (normalizeTopicV1 x) = normalizeTopicV1 x := by
  intro x h
  rw [normalizeTopicV1_short h]
  have h2 : (sanitize x).length ≤ 50 :=
    Nat.le_trans (sanitize_length_le x) h
  rw [normalizeTopicV1_short h2]
  exact sanitize_idem x

/-- C8 witness: instantiating idempotence at the topic `"fintech"`. -/
theorem c8_normalize_idempotent_witness :
    normalizeTopicV1 (normalizeTopicV1 "fintech".data) =
      normalizeTopicV1 "fintech".data :=
  c8_normalize_idempotent "fintech".data (by decide)

/-- C5 counterexample: on the record set with credibility scores `[0, 8]`,
the `get_full_interview` mean (a truthiness filter) reports `8`, while the
sum of the non-null scores divided by their count is `4` — so the claim's
universal equation fails for this aggregation. -/
theorem c5_counterexample :
    avgTruthy (fun i => i.credibility_score) recsCredZero8 = 8 ∧
    (recsCredZero8.filterMap fun i => i.credibility_score).sum /
      ((recsCredZero8.filterMap fun i => i.credibility_score).length : ℚ) = 4 ∧
    avgTruthy (fun i => i.credibility_score) recsCredZero8 ≠
      (recsCredZero8.filterMap fun i => i.credibility_score).sum /
        ((recsCredZero8.filterMap fun i => i.credibility_score).length : ℚ) := by
  refine ⟨?_, ?_, ?_⟩ <;>
    simp [avgTruthy, recsCredZero8, mkScored, jsTruthyQ, jsOr0] <;> norm_num

/-- C5 amended: the `getInterviewInsights` means do exclude null scores — for
every record set each reported average equals the sum of the non-null scores
divided by their count (with the `0`-on-empty convention matching `ℚ`
division by zero); on the claim's example record sets both aggregations
report the claimed values: credibility `[8, null, 6] ↦ 7`, and credibility
`[9, 7, null] ↦ 8` with consensus `[3, null, null] ↦ 3`.  The truthiness
means of `summarize_interviews`/`get_full_interview`, however, satisfy the
equation only in the absence of zero scores (see the counterexample). -/
theorem c5_mean_excludes_null :
    (∀ l : List InterviewRecord,
      insightsAverages l =
        ((l.filterMap fun i => i.consensus_score).sum /
          ((l.filterMap fun i => i.consensus_score).length : ℚ),
         (l.filterMap fun i => i.credibility_score).sum /
          ((l.filterMap fun i => i.credibility_score).length : ℚ),
         (l.filterMap fun i => i.completion_score).sum /
          ((l.filterMap fun i => i.completion_score).length : ℚ))) ∧
    insightsAverages recsCred8null6 = (0, 7, 0) ∧
    overallQuality recsCred8null6 = (0, 7, 0) ∧
    insightsAverages recsScenario4 = (3, 8, 0) ∧
    overallQuality recsScenario4 = (3, 8, 0) := by
  refine ⟨?_, ?_, ?_, ?_, ?_⟩
  · intro l
    unfold insightsAverages
    rw [avgValid_eq_ratio, avgValid_eq_ratio, avgValid_eq_ratio]
  · simp [insightsAverages, avgValid, validScores, recsCred8null6, mkScored]
    norm_num
  · simp [overallQuality, avgTruthy, recsCred8null6, mkScored, jsTruthyQ, jsOr0]
    norm_num
  · simp [insightsAverages, avgValid, validScores, recsScenario4, mkScored]
    norm_num
  · simp [overallQuality, avgTruthy, recsScenario4, mkScored, jsTruthyQ, jsOr0]
    norm_num

/-- C9: in `searchInterviews`, a minimum-score threshold of exactly `0`
behaves exactly as an absent threshold — the presence checks are truthiness
tests, so for every store and parameter set the results coincide. -/
theorem c9_zero_threshold_noop :
    ∀ (store : List InterviewRecord) (p : SearchParams),
      searchInterviewsV1 store {p with minConsensusScore := some 0} =
        searchInterviewsV1 store {p with minConsensusScore := none} ∧
      searchInterviewsV1 store {p with minCredibilityScore := some 0} =
        searchInterviewsV1 store {p with minCredibilityScore := none} := by
  intro store p
  constructor <;> (simp only [searchInterviewsV1, jsTruthyQ]; norm_num)

/-- C10: in the `summarize_interviews` / `get_full_interview` aggregations a
record whose consensus, credibility, or completion score equals `0` is
excluded from that average exactly as if the score were missing, and when no
record has a truthy score every reported mean is `0`. -/
theorem c10_zero_score_excluded :
    (∀ (l1 l2 : List InterviewRecord) (r : InterviewRecord),
      overallQuality (l1 ++ {r with consensus_score := some 0} :: l2) =
        overallQuality (l1 ++ {r with consensus_score := none} :: l2) ∧
      overallQuality (l1 ++ {r with credibility_score := some 0} :: l2) =
        overallQuality (l1 ++ {r with credibility_score := none} :: l2) ∧
      overallQuality (l1 ++ {r with completion_score := some 0} :: l2) =
        overallQuality (l1 ++ {r with completion_score := none} :: l2)) ∧
    (∀ l : List InterviewRecord,
      (∀ i ∈ l, jsTruthyQ i.consensus_score = false ∧
        jsTruthyQ i.credibility_score = false ∧
        jsTruthyQ i.completion_score = false) →
      overallQuality l = (0, 0, 0)) := by
  constructor
  · intro l1 l2 r
    refine ⟨?_, ?_, ?_⟩
    · unfold overallQuality
      rw [avgTruthy_mid_not_truthy (fun i => i.consensus_score) l1 l2
          {r with consensus_score := some 0} {r with consensus_score := none} rfl rfl,
        avgTruthy_mid_eq (fun i => i.credibility_score) l1 l2
          {r with consensus_score := some 0} {r with consensus_score := none} rfl,
        avgTruthy_mid_eq (fun i => i.completion_score) l1 l2
          {r with consensus_score := some 0} {r with consensus_score := none} rfl]
    · unfold overallQuality
      rw [avgTruthy_mid_not_truthy (fun i => i.credibility_score) l1 l2
          {r with credibility_score := some 0} {r with credibility_score := none} rfl rfl,
        avgTruthy_mid_eq (fun i => i.consensus_score) l1 l2
          {r with credibility_score := some 0} {r with credibility_score := none} rfl,
        avgTruthy_mid_eq (fun i => i.completion_score) l1 l2
          {r with credibility_score := some 0} {r with credibility_score := none} rfl]
    · unfold overallQuality
      rw [avgTruthy_mid_not_truthy (fun i => i.completion_score) l1 l2
          {r with completion_score := some 0} {r with completion_score := none} rfl rfl,
        avgTruthy_mid_eq (fun i => i.consensus_score) l1 l2
          {r with completion_score := some 0} {r with completion_score := none} rfl,
        avgTruthy_mid_eq (fun i => i.credibility_score) l1 l2
          {r with completion_score := some 0} {r with completion_score := none} rfl]
  · intro l h
    unfold overallQuality
    rw [avgTruthy_all_false (fun i hi => (h i hi).1),
      avgTruthy_all_false (fun i hi => (h i hi).2.1),
      avgTruthy_all_false (fun i hi => (h i hi).2.2)]

/-- C10 witness: instantiating the zero-score exclusion at a one-record set
and the all-non-truthy case at a record with `0` and missing scores. -/
theorem c10_zero_score_excluded_witness :
    overallQuality ([] ++ {mkScored (some 1) (some 2) (some 3) with
        consensus_score := some 0} :: []) =
      overallQuality ([] ++ {mkScored (some 1) (some 2) (some 3) with
        consensus_score := none} :: []) ∧
    overallQuality [mkScored (some 0) none (some 0)] = (0, 0, 0) :=
  ⟨(c10_zero_score_excluded.1 [] [] (mkScored (some 1) (some 2) (some 3))).1,
   c10_zero_score_excluded.2 [mkScored (some 0) none (some 0)] (by decide)⟩

/-- C2 counterexample: an AI response that is valid JSON but carries no
`searches` array (modelled by `okParsed none`) is returned unvalidated by
revision 1's extractor, and the resulting `TypeError` surfaces from
`searchExperts` instead of the fallback taking over — so the claim that such
failures never propagate to the caller is false. -/
theorem c2_counterexample :
    searchExpertsV1 (.okParsed none) ⟨"experts at Google".data, none, none, 10⟩ =
      .error "TypeError".data := rfl

/-- C2 amended: in revision 1 every AI failure that skips or throws — a
missing API key, a thrown fetch, a non-OK HTTP status, or a body `JSON.parse`
rejects — is absorbed inside the extractor and yields exactly the
single-variant deterministic fallback batch, and the AI call is attempted at
most once with no retry; revision 2 additionally validates the parsed shape,
so its extractor returns a nonempty batch on every outcome.  Revision 1,
however, returns a valid-JSON-but-mis-shaped response as-is (see the
counterexample). -/
theorem c2_ai_failures_fall_back :
    ∀ (q : Str) (cc ct : Option Str),
      generateSearchQueriesV1 .noKey q cc ct = some [fallbackV1 q cc ct] ∧
      generateSearchQueriesV1 .fetchThrow q cc ct = some [fallbackV1 q cc ct] ∧
      generateSearchQueriesV1 .notOk q cc ct = some [fallbackV1 q cc ct] ∧
      generateSearchQueriesV1 .okUnparsable q cc ct = some [fallbackV1 q cc ct] ∧
      (∀ ai : AiOutcome, aiAttempts ai ≤ 1) ∧
      (∀ ai : AiOutcome, generateSearchQueriesV2 ai q cc ct ≠ []) := by
  intro q cc ct
  refine ⟨rfl, rfl, rfl, rfl, ?_, ?_⟩
  · intro ai
    cases ai <;> simp [aiAttempts]
  · intro ai
    cases ai with
    | okParsed s =>
      cases s with
      | none => simp [generateSearchQueriesV2]
      | some l => cases l <;> simp [generateSearchQueriesV2]
    | noKey => simp [generateSearchQueriesV2]
    | fetchThrow => simp [generateSearchQueriesV2]
    | notOk => simp [generateSearchQueriesV2]
    | okUnparsable => simp [generateSearchQueriesV2]

/-- C3 counterexample: the query `"former big 5 partners"` contains the
"big 5" alias, yet revision 2's fallback returns employment status `former`,
not `any` — so the claim's "any big-5 query gets status `any`" is false. -/
theorem c3_counterexample :
    jsIncludes (toLowerStr formerBig5Query) "big 5".data = true ∧
    (fallbackV2 formerBig5Query none none).employment_status ≠ .any ∧
    (fallbackV2 formerBig5Query none none).employment_status = .former := by
  decide

/-- C3 amended: for every query containing "big 5" (case-insensitively) the
fallback of either revision deterministically returns exactly the canonical
five-firm company list, and with no AI configured the extractor returns
exactly that single fallback variant; revision 1 always reports status `any`,
and for the spec's query `"Big 5 search firms"` revision 2 reports `any` as
well (a big-5 query containing "former"/"ex-"/"current" instead gets that
status). -/
theorem c3_big5_fallback :
    (∀ q : Str, jsIncludes (toLowerStr q) "big 5".data = true →
      (fallbackV1 q none none).companies = big5Companies ∧
      (fallbackV1 q none none).employment_status = .any ∧
      (fallbackV2 q none none).companies = big5Companies ∧
      generateSearchQueriesV1 .noKey q none none = some [fallbackV1 q none none] ∧
      generateSearchQueriesV2 .noKey q none none = [fallbackV2 q none none]) ∧
    (fallbackV2 big5Query none none).employment_status = .any ∧
    (fallbackV2 big5Query none none).companies = big5Companies := by
  refine ⟨?_, by decide, by decide⟩
  intro q h
  refine ⟨?_, rfl, ?_, rfl, rfl⟩
  · simp [fallbackV1, patternV1, h]
  · simp [fallbackV2, patternV2, h]

/-- C3 witness: instantiating the amended claim at `"Big 5 search firms"`. -/
theorem c3_big5_fallback_witness :
    (fallbackV1 big5Query none none).companies = big5Companies ∧
    (fallbackV1 big5Query none none).employment_status = .any ∧
    (fallbackV2 big5Query none none).companies = big5Companies ∧
    generateSearchQueriesV1 .noKey big5Query none none =
      some [fallbackV1 big5Query none none] ∧
    generateSearchQueriesV2 .noKey big5Query none none =
      [fallbackV2 big5Query none none] :=
  c3_big5_fallback.1 big5Query (by decide)

/-- C4 counterexample: the query `"former google engineers"` contains
"former", yet revision 1's fallback reports employment status `any` — so the
claim's derivation rule does not hold for every fallback-handled query. -/
theorem c4_counterexample :
    jsIncludes (toLowerStr formerGoogleQuery) "former".data = true ∧
    (fallbackV1 formerGoogleQuery none none).employment_status = .any ∧
    (fallbackV1 formerGoogleQuery none none).employment_status ≠ .former := by
  decide

set_option maxRecDepth 4000 in
/-- C6 counterexample: a 69-character topic whose only non-filler token is
`the'what` — sanitization turns the apostrophe into a space, so the string
submitted to the store is `the what`, two stop-word tokens of length ≤ 3;
the claim's guarantee about the submitted search string is false. -/
theorem c6_counterexample :
    50 < apostropheTopic.length ∧
    normalizeTopicV1 apostropheTopic = "the what".data ∧
    ¬ (∀ t ∈ wordTokens (normalizeTopicV1 apostropheTopic),
        3 < t.length ∧ t ∉ fillerWords) := by
  refine ⟨by decide, by decide, ?_⟩
  intro h
  have := h "the".data (by decide)
  exact absurd this.2 (by decide)

/-- C6 amended: for every topic longer than 50 characters that contains no
single-quote, double-quote or backslash character, the search string
submitted to the store consists of at most 4 whitespace-separated tokens,
each longer than 3 characters and none a stop-word from the filler list
(sanitization can split a token containing one of those three characters, as
the counterexample shows). -/
theorem c6_key_term_reduction :
    ∀ topic : Str, 50 < topic.length →
      (∀ c ∈ topic, c ≠ apos ∧ c ≠ dquote ∧ c ≠ bslash) →
      (wordTokens (normalizeTopicV1 topic)).length ≤ 4 ∧
      ∀ t ∈ wordTokens (normalizeTopicV1 topic), 3 < t.length ∧ t ∉ fillerWords := by
  intro topic hlen hq
  have hform : normalizeTopicV1 topic = sanitize (extractKeyTerms topic) := by
    unfold normalizeTopicV1 searchTermsV1
    rw [if_pos hlen]
  set words := splitRuns isSplitChar (toLowerStr (stripParens topic)) with hwords
  set kw := words.filter
    (fun w => decide (3 < w.length) && !(fillerWords.contains w)) with hkw
  have hext : extractKeyTerms topic = joinSpace (kw.take 4) := rfl
  have htok : ∀ t ∈ kw.take 4, (3 < t.length ∧ t ∉ fillerWords) ∧ t ≠ [] ∧
      ∀ c ∈ t, jsIsWs c = false ∧ isBadChar c = false := by
    intro t ht
    have ht' : t ∈ kw := List.mem_of_mem_take ht
    rw [hkw] at ht'
    have hmem := List.mem_filter.mp ht'
    have hsplit : t ∈ words := hmem.1
    have hP := hmem.2
    rw [Bool.and_eq_true] at hP
    have hlen3 : 3 < t.length := of_decide_eq_true hP.1
    have hfil : t ∉ fillerWords := by
      intro hmem2
      have h1 := hP.2
      rw [Bool.not_eq_true'] at h1
      have h3 : fillerWords.contains t = true := by
        simp only [List.contains, List.elem_eq_mem]
        exact decide_eq_true hmem2
      rw [h3] at h1
      exact Bool.noConfusion h1
    rw [hwords] at hsplit
    have hsepfree : ∀ c ∈ t, isSplitChar c = false :=
      splitRuns_sep_false _ _ t hsplit
    refine ⟨⟨hlen3, hfil⟩, ?_, ?_⟩
    · intro hnil
      rw [hnil] at hlen3
      simp at hlen3
    · intro c hc
      have hsc := hsepfree c hc
      have hws : jsIsWs c = false := by
        cases hw : jsIsWs c
        · rfl
        · unfold isSplitChar at hsc
          rw [hw] at hsc
          simp at hsc
      refine ⟨hws, ?_⟩
      have hcmem : c ∈ toLowerStr (stripParens topic) :=
        splitRuns_subset _ _ t hsplit c hc
      unfold toLowerStr at hcmem
      obtain ⟨d, hd, hdc⟩ := List.mem_map.mp hcmem
      rw [← hdc, isBadChar_jsToLowerChar]
      rcases mem_stripParens hd with hd2 | rfl
      · obtain ⟨h1, h2, h3⟩ := hq d hd2
        by_cases hsemi : d = ';'
        · exfalso
          rw [← hdc, hsemi] at hsc
          exact absurd hsc (by decide)
        · unfold isBadChar
          rw [beq_eq_false_iff_ne.mpr hsemi, beq_eq_false_iff_ne.mpr h1,
            beq_eq_false_iff_ne.mpr h2, beq_eq_false_iff_ne.mpr h3]
          rfl
      · decide
  have hkwprops : ∀ t ∈ kw.take 4, t ≠ [] ∧ ∀ c ∈ t, jsIsWs c = false :=
    fun t ht => ⟨(htok t ht).2.1, fun c hc => ((htok t ht).2.2 c hc).1⟩
  have hnorm : normalizeTopicV1 topic = joinSpace (kw.take 4) := by
    rw [hform, hext]
    exact sanitize_joinSpace (fun t ht => ⟨(htok t ht).2.1, (htok t ht).2.2⟩)
  rw [hnorm, wordTokens_joinSpace hkwprops]
  constructor
  · rw [List.length_take]
    exact Nat.min_le_left _ _
  · exact fun t ht => (htok t ht).1

set_option maxRecDepth 4000 in
/-- C6 witness: instantiating the amended claim at the spec's scenario-3
Adobe topic (124 characters, quote-free). -/
theorem c6_key_term_reduction_witness :
    50 < adobeTopic.length ∧
    (wordTokens (normalizeTopicV1 adobeTopic)).length ≤ 4 ∧
    ∀ t ∈ wordTokens (normalizeTopicV1 adobeTopic),
      3 < t.length ∧ t ∉ fillerWords :=
  ⟨by decide, c6_key_term_reduction adobeTopic (by decide) (by decide)⟩

/-- C4 amended: in revision 2 the fallback's employment status follows the
claimed rule — `former` on "former"/"ex-", else `current` on "current", else
`any` — independently of which company/role pattern branch matched (the
status is derived before the pattern chain and no branch touches it);
revision 1's fallback instead always returns `any` (see the
counterexample). -/
theorem c4_status_derivation :
    ∀ (q : Str) (cc ct : Option Str),
      (fallbackV2 q cc ct).employment_status = claimEmploymentStatus q := by
  intro q cc ct
  show deriveStatusV2 (toLowerStr q) = claimEmploymentStatus q
  unfold deriveStatusV2 claimEmploymentStatus
  cases hf : jsIncludes (toLowerStr q) "former".data <;>
    cases he : jsIncludes (toLowerStr q) "ex-".data <;>
      cases hc : jsIncludes (toLowerStr q) "current".data <;> simp [hf, he, hc]

end ExpertPlatform
